import Mathlib

/-!
Shallow embedding of the session/turn persistence model and the streaming
turn orchestrator of the uptotrial backend.

Sources embedded here:
- `app/infrastructure/database/models.py` : `DialogueTurn`, `Session`,
  `Session.get_dialogue_turns` (recursive CTE walk), `Session.add_turn`.
- `app/services/clinical_trials_agent/clinical_trials_agent.py` :
  `make_sse_event`, `make_messages_from_dialogue_turns`, the event loop of
  `post_turn_streamed`, `get_session_messages` and the session resolution
  shared by `post_turn` / `post_turn_streamed`.
- `app/api/errors.py` : the exception taxonomy and the handlers registered
  by `register_exception_handlers`, plus the framework default (an
  exception no registered handler matches surfaces as a 500).

Machine integers do not overflow in the relevant paths, so ids, clocks and
status codes are `Nat`.  Timestamps (`func.now()`) are modelled by a logical
clock carried in the database state: every committed write happens at the
current clock value and advances it, which preserves exactly the ordering
facts the code relies on.  Fallible operations return `Except`/`Option`.
-/

/-- A role-tagged message dict such as `{"role": "user", "content": text}`. -/
structure Message where
  role : String
  content : String
  deriving DecidableEq, Repr

/-- Row of the `dialogue_turns` table (`models.py`, class `DialogueTurn`). -/
structure DialogueTurn where
  id : Nat
  created_at : Nat
  session_id : Nat
  correlation_id : String
  request_text : String
  response_data : Message
  previous_turn_id : Option Nat
  deriving DecidableEq, Repr

/-- Row of the `sessions` table (`models.py`, class `Session`). -/
structure Session where
  id : Nat
  created_at : Nat
  updated_at : Nat
  head_turn_id : Option Nat
  session_uuid : String
  user_id : Option Nat
  deriving DecidableEq, Repr

/-- The persistent store: the two tables, the autoincrement counters and the
logical clock standing for `func.now()`. -/
structure DB where
  turns : List DialogueTurn
  sessions : List Session
  nextTurnId : Nat
  nextSessionId : Nat
  clock : Nat
  deriving DecidableEq, Repr

/-- Exceptions that can escape the embedded code paths.  `noResultFound` is
sqlalchemy's `NoResultFound` raised by `scalar_one()` on an empty result;
`notFoundError`/`databaseError` are `app.api.errors.NotFoundError` /
`DatabaseError`; `serviceError`/`llmError` are `ServiceError`/`LLMError`. -/
inductive PyExc where
  | noResultFound
  | multipleResultsFound
  | notFoundError (detail : String)
  | databaseError (detail : String)
  | serviceError (detail : String)
  | llmError (detail : String)
  deriving DecidableEq, Repr

/-- HTTP status produced for an exception by the handlers that
`register_exception_handlers` installs (`app/api/errors.py`): `ServiceError`
(and its subclass `LLMError`) → 503, `NotFoundError` → 404, other
`DatabaseError` → 500.  An exception matching no registered handler — in
particular sqlalchemy's `NoResultFound` — falls through to the framework
default of 500. -/
def exception_status : PyExc → Nat
  | .serviceError _ => 503
  | .llmError _ => 503
  | .notFoundError _ => 404
  | .databaseError _ => 500
  | .noResultFound => 500
  | .multipleResultsFound => 500

/-- A status in the 4xx range is a client error. -/
def isClientErrorStatus (status : Nat) : Bool :=
  400 ≤ status && status < 500

/-- `SELECT ... WHERE dialogue_turns.id == i` returning at most one row. -/
def findTurn (db : DB) (i : Nat) : Option DialogueTurn :=
  db.turns.find? (fun t => t.id == i)

/-- `db.execute(select(Session).where(Session.session_uuid == token))`
followed by `.scalar_one()`: exactly one row or an exception
(`NoResultFound` on zero rows, `MultipleResultsFound` past one). -/
def findSession (db : DB) (token : String) : Except PyExc Session :=
  match db.sessions.filter (fun s => s.session_uuid == token) with
  | [s] => .ok s
  | [] => .error .noResultFound
  | _ => .error .multipleResultsFound

/-- One evaluation of the recursive CTE of `Session.get_dialogue_turns`,
starting from turn id `i`, with explicit fuel.  The CTE has no iteration
bound in the source; `none` means the iteration has not finished within
`fuel` recursive steps (so `∀ fuel, ... = none` is non-termination).
A missing row ends the iteration with the rows collected so far, exactly as
the CTE's join produces no further row. -/
def chainFromAux (db : DB) (i : Nat) : Nat → Option (List DialogueTurn)
  | 0 => none
  | fuel + 1 =>
    match findTurn db i with
    | none => some []
    | some t =>
      match t.previous_turn_id with
      | none => some [t]
      | some p => (chainFromAux db p fuel).map (t :: ·)

/-- `Session.get_dialogue_turns` (`models.py`): empty list when
`head_turn_id` is null, otherwise the recursive CTE walk from the head turn.
Per its own docstring the rows come back ordered from newest to oldest, the
head turn first. -/
def get_dialogue_turns (db : DB) (sess : Session) (fuel : Nat) :
    Option (List DialogueTurn) :=
  match sess.head_turn_id with
  | none => some []
  | some h => chainFromAux db h fuel

/-- `Session.add_turn` (`models.py`) with the default `commit=True`: inside
one transaction, insert a turn whose `previous_turn_id` is the session's
current `head_turn_id` (id from the autoincrement counter, `created_at`
from `func.now()`), repoint the session's `head_turn_id` at the new turn
and bump `updated_at` (the column's `onupdate=func.now()`). -/
def add_turn (sess : Session) (request_text : String)
    (response_data : Message) (correlation_id : String) (db : DB) :
    DialogueTurn × Session × DB :=
  let new_turn : DialogueTurn :=
    { id := db.nextTurnId
      created_at := db.clock
      session_id := sess.id
      correlation_id := correlation_id
      request_text := request_text
      response_data := response_data
      previous_turn_id := sess.head_turn_id }
  let sess' : Session :=
    { sess with head_turn_id := some new_turn.id, updated_at := db.clock }
  let db' : DB :=
    { db with
      turns := new_turn :: db.turns
      sessions := sess' :: db.sessions.filter (fun s => s.id != sess.id)
      nextTurnId := db.nextTurnId + 1
      clock := db.clock + 1 }
  (new_turn, sess', db')

/-- Session creation in `post_turn` / `post_turn_streamed`:
`Session(session_uuid=uuid4()); db.add(session); db.commit()`. -/
def new_session (db : DB) (uuid : String) : Session × DB :=
  let sess : Session :=
    { id := db.nextSessionId
      created_at := db.clock
      updated_at := db.clock
      head_turn_id := none
      session_uuid := uuid
      user_id := none }
  (sess,
   { db with
     sessions := sess :: db.sessions
     nextSessionId := db.nextSessionId + 1
     clock := db.clock + 1 })

/-- `make_messages_from_dialogue_turns` (`clinical_trials_agent.py`): a
user message from `request_text` followed by the stored `response_data`,
for each turn in the given order. -/
def make_messages_from_dialogue_turns (dialogue_turns : List DialogueTurn) :
    List Message :=
  dialogue_turns.flatMap
    (fun t => [{ role := "user", content := t.request_text }, t.response_data])

/-- `get_session_messages` (`clinical_trials_agent.py`): resolve the session
by token with `scalar_one()`, walk its dialogue turns, flatten to messages. -/
def get_session_messages (db : DB) (session_uuid : String) (fuel : Nat) :
    Except PyExc (Option (List Message)) :=
  (findSession db session_uuid).map fun sess =>
    (get_dialogue_turns db sess fuel).map make_messages_from_dialogue_turns

/-- The characters of the pattern `"openai.com"` rewritten by
`make_sse_event`. -/
def patChars : List Char := "openai.com".data

/-- The characters of the replacement `"uptotrial.com"`. -/
def replChars : List Char := "uptotrial.com".data

/-- `xs.matchesAt ys`: `xs` is a prefix of `ys` (structural `isPrefixOf`,
spelled out so every proof can unfold it). -/
def matchesAt : List Char → List Char → Bool
  | [], _ => true
  | _ :: _, [] => false
  | a :: xs, b :: ys => a == b && matchesAt xs ys

/-- `hasSubChars s`: some occurrence of `patChars` starts inside `s`. -/
def hasSubChars : List Char → Bool
  | [] => false
  | c :: rest => matchesAt patChars (c :: rest) || hasSubChars rest

/-- Python's `str.replace` specialised to
`value.replace("openai.com", "uptotrial.com")`: scan left to right, rewrite
each (non-overlapping) occurrence, copy every other character.  The fuel is
a structural-recursion device; `s.length` steps always suffice. -/
def pyReplaceAux : Nat → List Char → List Char
  | 0, s => s
  | _ + 1, [] => []
  | fuel + 1, c :: rest =>
    if matchesAt patChars (c :: rest) then
      replChars ++ pyReplaceAux fuel ((c :: rest).drop patChars.length)
    else
      c :: pyReplaceAux fuel rest

/-- `value.replace("openai.com", "uptotrial.com")` on strings. -/
def pyReplaceStr (s : String) : String :=
  ⟨pyReplaceAux s.data.length s.data⟩

/-- Whether `"openai.com"` occurs in `s`. -/
def hasSubStr (s : String) : Bool :=
  hasSubChars s.data

/-- `make_sse_event` (`clinical_trials_agent.py`): the only transformation
applied to the value is `value.replace("openai.com", "uptotrial.com")`; the
result is interpolated verbatim between the `<value>` tags. -/
def make_sse_event (key value : String) : String :=
  "<event><key>" ++ key ++ "</key><value>" ++ pyReplaceStr value
    ++ "</value></event>"

/-- One yielded item of `post_turn_streamed`: either a call
`make_sse_event key value`, or the bare final sentinel string
`"event: end_ok"`. -/
inductive Frame where
  | sse (key value : String)
  | bare (line : String)
  deriving DecidableEq, Repr

/-- The exact string the client receives for a frame. -/
def renderFrame : Frame → String
  | .sse key value => make_sse_event key value
  | .bare line => line

/-- The upstream events distinguished by the `if`/`elif` chain of
`post_turn_streamed` over `streamed_response.stream_events()`.  A chunk with
`chunk.type == "raw_response_event"` carries `chunk.data.type`; the
`output_item.added` case also carries `chunk.data.item.type` and
`chunk.data.item.name`.  `otherRaw` stands for any other
`raw_response_event` data type and `nonRaw` for any chunk whose type is not
`"raw_response_event"` — both hit a bare `pass`. -/
inductive RawEvent where
  | textDelta (delta : String)
  | outputItemAdded (itemType name : String)
  | functionCallArgumentsDelta
  | functionCallArgumentsDone (arguments : String)
  | webSearchSearching
  | otherRaw (dataType : String)
  | nonRaw
  deriving DecidableEq, Repr

/-- The `Data` announcement for the start of a `list_studies` call. -/
def toolMsgListStudies : String :=
  "<tool>Searching ClinicalTrials.gov for studies...</tool>"

/-- The `Data` announcement for the start of a `fetch_study` call. -/
def toolMsgFetchStudy : String :=
  "<tool>Fetching a study from ClinicalTrials.gov...</tool>"

/-- The `Data` announcement for the start of a `search_places` call. -/
def toolMsgSearchPlaces : String :=
  "<tool>Searching locations...</tool>"

/-- The `Data` announcement for `response.web_search_call.searching`. -/
def toolMsgWebSearch : String :=
  "<tool>Searching the web for more information...</tool>"

/-- One iteration of the event loop of `post_turn_streamed`: given the
current `last_function_call` value and the upstream event, produce the
frames yielded, the strings appended to `chunks`, and the new
`last_function_call`.  Mirrors the `if`/`elif` chain of the source: every
yielded frame is `make_sse_event("data", x)` for the very string `x` that
is also appended to `chunks`; unmatched cases fall through to `pass`. -/
def classify (last : String) : RawEvent → List Frame × List String × String
  | .textDelta delta => ([.sse "data" delta], [delta], last)
  | .outputItemAdded itemType name =>
    if itemType == "function_call" && name == "list_studies" then
      ([.sse "data" toolMsgListStudies], [toolMsgListStudies], "list_studies")
    else if itemType == "function_call" && name == "fetch_study" then
      ([.sse "data" toolMsgFetchStudy], [toolMsgFetchStudy], "fetch_study")
    else if itemType == "function_call" && name == "search_places" then
      ([.sse "data" toolMsgSearchPlaces], [toolMsgSearchPlaces], "search_places")
    else
      ([], [], last)
  | .functionCallArgumentsDelta => ([], [], last)
  | .functionCallArgumentsDone arguments =>
    let item := "<tool_details>" ++ last ++ "(" ++ arguments ++ ")</tool_details>"
    ([.sse "data" item], [item], last)
  | .webSearchSearching => ([.sse "data" toolMsgWebSearch], [toolMsgWebSearch], last)
  | .otherRaw _ => ([], [], last)
  | .nonRaw => ([], [], last)

/-- The whole loop over the upstream events delivered before the stream
ended (normally or by raising): accumulated frames and chunks, in order. -/
def runLoop (last : String) : List RawEvent → List Frame × List String
  | [] => ([], [])
  | e :: rest =>
    let (fs, cs, last') := classify last e
    let (fs', cs') := runLoop last' rest
    (fs ++ fs', cs ++ cs')

/-- How the upstream stream ends: `stream_events()` is exhausted normally,
or raises an exception rendered as `msg` (`str(e)`). -/
inductive Outcome where
  | completes
  | raises (msg : String)
  deriving DecidableEq, Repr

/-- An injected upstream stream: the events delivered, then how it ends. -/
structure StreamRun where
  events : List RawEvent
  outcome : Outcome
  deriving DecidableEq, Repr

/-- The body of `post_turn_streamed` after session resolution: yield the
`session_uuid` frame, run the event loop with `last_function_call`
initialised to `"Unknown"`, then either (on an exception escaping the
loop) yield the `error` / `data` / `end_error` frames and return without
touching the database, or (on normal completion) persist the accumulated
chunks as the assistant message via `add_turn` and yield the bare
`"event: end_ok"` sentinel. -/
def stream_turn_body (sess : Session) (db : DB) (text correlation_id : String)
    (run : StreamRun) : List Frame × Session × DB :=
  let (body, chunks) := runLoop "Unknown" run.events
  match run.outcome with
  | .raises msg =>
    (Frame.sse "session_uuid" sess.session_uuid :: body
       ++ [.sse "event" "error", .sse "data" msg, .sse "event" "end_error"],
     sess, db)
  | .completes =>
    let output_message : Message :=
      { role := "assistant", content := String.join chunks }
    let (_, sess', db') := add_turn sess text output_message correlation_id db
    (Frame.sse "session_uuid" sess.session_uuid :: body
       ++ [.bare "event: end_ok"],
     sess', db')

/-- `post_turn_streamed` (`clinical_trials_agent.py`): resolve or create the
session, then run `stream_turn_body`.  `freshUuid` stands for the
`uuid.uuid4()` drawn when no session token is supplied.  An unknown token
makes `scalar_one()` raise before anything is yielded. -/
def post_turn_streamed (session_uuid : Option String) (freshUuid : String)
    (text correlation_id : String) (db : DB) (run : StreamRun) :
    Except PyExc (List Frame × Session × DB) :=
  match session_uuid with
  | none =>
    let (sess, db') := new_session db freshUuid
    .ok (stream_turn_body sess db' text correlation_id run)
  | some token =>
    (findSession db token).map fun sess =>
      stream_turn_body sess db text correlation_id run

/-- A terminal frame of the stream: the bare `"event: end_ok"` sentinel or
an `event`-keyed frame with value `end_ok` or `end_error`. -/
def isTerminalFrame : Frame → Bool
  | .sse key value => key == "event" && (value == "end_ok" || value == "end_error")
  | .bare line => line == "event: end_ok"

/-- The client-visible content of a `data`-keyed frame, stripped of the
framing: the value as it appears between the `<value>` tags of the rendered
frame, i.e. after the `openai.com → uptotrial.com` rewrite. -/
def dataValueOf : Frame → Option String
  | .sse key value => if key == "data" then some (pyReplaceStr value) else none
  | .bare _ => none

/-- Concatenation of every `data`-keyed frame's client-visible content. -/
def clientTranscript (frames : List Frame) : String :=
  String.join (frames.filterMap dataValueOf)

/-! ### Iterated appends and concrete stores used as test inputs -/

/-- A sequence of `add_turn` calls: each element carries the request text,
the response record and the correlation token of one successful append. -/
def applyTurns : List (String × Message × String) → Session → DB → Session × DB
  | [], sess, db => (sess, db)
  | (rt, rd, cid) :: rest, sess, db =>
    let r := add_turn sess rt rd cid db
    applyTurns rest r.2.1 r.2.2

/-- The walk of `get_dialogue_turns` finishes with some result within some
number of CTE iterations. -/
def walkTerminates (db : DB) (sess : Session) : Prop :=
  ∃ fuel l, get_dialogue_turns db sess fuel = some l

/-- The empty store. -/
def emptyDB : DB :=
  { turns := [], sessions := [], nextTurnId := 0, nextSessionId := 0, clock := 0 }

/-- A fresh session created on the empty store. -/
def exSession : Session := (new_session emptyDB "session-1").1

/-- The store right after creating `exSession`. -/
def exDB : DB := (new_session emptyDB "session-1").2

/-- `exSession` after appending a turn with request `"a"`. -/
def exAfterA : DialogueTurn × Session × DB :=
  add_turn exSession "a" { role := "assistant", content := "reply a" } "cid-a" exDB

/-- ... and then a second turn with request `"b"`. -/
def exAfterB : DialogueTurn × Session × DB :=
  add_turn exAfterA.2.1 "b" { role := "assistant", content := "reply b" } "cid-b"
    exAfterA.2.2

/-- A corrupt turn row whose `previous_turn_id` points at itself. -/
def loopTurn : DialogueTurn :=
  { id := 1, created_at := 0, session_id := 1, correlation_id := "c",
    request_text := "r", response_data := { role := "assistant", content := "x" },
    previous_turn_id := some 1 }

/-- A store holding only the self-looping turn. -/
def loopDB : DB :=
  { turns := [loopTurn], sessions := [], nextTurnId := 2, nextSessionId := 2,
    clock := 1 }

/-- A session whose head points into the self-loop. -/
def loopSession : Session :=
  { id := 1, created_at := 0, updated_at := 0, head_turn_id := some 1,
    session_uuid := "looped", user_id := none }

/-- A streamed run over one `openai.com` text delta that completes. -/
def exStreamOpenai : List Frame × Session × DB :=
  stream_turn_body exSession exDB "q" "cid-s"
    { events := [.textDelta "openai.com"], outcome := .completes }

/-! ### Helper lemmas: the `openai.com → uptotrial.com` rewrite -/

theorem patChars_eq :
    patChars = ['o', 'p', 'e', 'n', 'a', 'i', '.', 'c', 'o', 'm'] := rfl

theorem replChars_eq :
    replChars = ['u', 'p', 't', 'o', 't', 'r', 'i', 'a', 'l', '.', 'c', 'o', 'm'] := rfl

theorem pyReplaceAux_of_not_hasSub :
    ∀ fuel s, s.length ≤ fuel → hasSubChars s = false → pyReplaceAux fuel s = s := by
  intro fuel
  induction fuel with
  | zero => intro s _ _; rfl
  | succ n ih =>
    intro s hlen hsub
    match s with
    | [] => rfl
    | c :: rest =>
      have hor : (matchesAt patChars (c :: rest) || hasSubChars rest) = false := hsub
      have h1 : matchesAt patChars (c :: rest) = false := by
        cases hmp : matchesAt patChars (c :: rest)
        · rfl
        · rw [hmp] at hor; simp at hor
      have h2 : hasSubChars rest = false := by
        rw [h1] at hor; simpa using hor
      calc pyReplaceAux (n + 1) (c :: rest) = c :: pyReplaceAux n rest := by
            simp [pyReplaceAux, h1]
        _ = c :: rest := by
            rw [ih rest (Nat.le_of_succ_le_succ hlen) h2]

theorem pyReplaceAux_ne_of_hasSub :
    ∀ fuel s, s.length ≤ fuel → hasSubChars s = true → pyReplaceAux fuel s ≠ s := by
  intro fuel
  induction fuel with
  | zero =>
    intro s hlen hsub
    cases s with
    | nil => simp [hasSubChars] at hsub
    | cons c rest => simp at hlen
  | succ n ih =>
    intro s hlen hsub
    match s with
    | [] => simp [hasSubChars] at hsub
    | c :: rest =>
      by_cases hm : matchesAt patChars (c :: rest) = true
      · have hc : c = 'o' := by
          rw [patChars_eq] at hm
          simp only [matchesAt, Bool.and_eq_true, beq_iff_eq] at hm
          exact hm.1.symm
        simp only [pyReplaceAux, if_pos hm, replChars_eq, List.cons_append]
        intro hEq
        rw [hc] at hEq
        exact absurd (List.head_eq_of_cons_eq hEq) (by decide)
      · have hm' : matchesAt patChars (c :: rest) = false := by
          simpa using hm
        have hsub' : hasSubChars rest = true := by
          simpa [hasSubChars, hm'] using hsub
        simp only [pyReplaceAux, if_neg hm]
        intro hEq
        exact ih rest (Nat.le_of_succ_le_succ hlen) hsub'
          (List.tail_eq_of_cons_eq hEq)

theorem pyReplaceStr_eq_self : ∀ s : String, hasSubStr s = false → pyReplaceStr s = s := by
  intro s h
  have hx := pyReplaceAux_of_not_hasSub s.data.length s.data le_rfl h
  cases s with
  | mk data => exact congrArg String.mk hx

theorem pyReplaceStr_ne_self : ∀ s : String, hasSubStr s = true → pyReplaceStr s ≠ s := by
  intro s h hEq
  have hx : pyReplaceAux s.data.length s.data = s.data := congrArg String.data hEq
  exact pyReplaceAux_ne_of_hasSub s.data.length s.data le_rfl h hx

/-! ### Helper lemmas: the streamed event loop -/

theorem classify_frames_eq (last : String) (e : RawEvent) :
    (classify last e).1 = ((classify last e).2.1).map (Frame.sse "data") := by
  cases e <;> simp only [classify] <;> (try split_ifs) <;> rfl

theorem runLoop_frames_eq :
    ∀ (events : List RawEvent) (last : String),
      (runLoop last events).1 = ((runLoop last events).2).map (Frame.sse "data") := by
  intro events
  induction events with
  | nil => intro last; rfl
  | cons e rest ih =>
    intro last
    rcases h : classify last e with ⟨fs, cs, last'⟩
    have hfs : fs = cs.map (Frame.sse "data") := by
      have := classify_frames_eq last e
      rw [h] at this
      exact this
    show (runLoop last (e :: rest)).1 = _
    simp only [runLoop, h]
    rw [hfs, ih last', List.map_append]

theorem runLoop_filter_terminal (events : List RawEvent) (last : String) :
    ((runLoop last events).1).filter isTerminalFrame = [] := by
  rw [runLoop_frames_eq, List.filter_map]
  have hcomp : (isTerminalFrame ∘ Frame.sse "data") = fun _ => false := by
    funext c; rfl
  rw [hcomp]
  simp

theorem runLoop_dataValues (events : List RawEvent) (last : String) :
    ((runLoop last events).1).filterMap dataValueOf
      = ((runLoop last events).2).map pyReplaceStr := by
  rw [runLoop_frames_eq, List.filterMap_map]
  have hcomp : (dataValueOf ∘ Frame.sse "data") = some ∘ pyReplaceStr := by
    funext c; rfl
  rw [hcomp, List.filterMap_eq_map]

/-! ### Helper lemmas: the backward chain walk -/

theorem chainFromAux_mono :
    ∀ (db : DB) (fuel fuel' i : Nat) (l : List DialogueTurn), fuel ≤ fuel' →
      chainFromAux db i fuel = some l → chainFromAux db i fuel' = some l := by
  intro db fuel
  induction fuel with
  | zero => intro fuel' i l _ h; exact absurd h (by simp [chainFromAux])
  | succ n ih =>
    intro fuel' i l hle h
    obtain ⟨m, rfl⟩ : ∃ m, fuel' = m + 1 := ⟨fuel' - 1, by omega⟩
    cases hf : findTurn db i with
    | none =>
      simp only [chainFromAux, hf] at h ⊢
      exact h
    | some t =>
      cases hp : t.previous_turn_id with
      | none =>
        simp only [chainFromAux, hf, hp] at h ⊢
        exact h
      | some p =>
        simp only [chainFromAux, hf, hp] at h ⊢
        cases hc : chainFromAux db p n with
        | none => rw [hc] at h; simp at h
        | some l0 =>
          rw [hc] at h
          rw [ih m p l0 (by omega) hc]
          exact h

/-- If every `previous_turn_id` in the store points strictly downward in id
(which `add_turn` guarantees, ids being allocated in increasing order), the
CTE walk from id `i` finishes within `i + 1` hops. -/
theorem chainFromAux_terminates_of_decreasing :
    ∀ (db : DB), (∀ t ∈ db.turns, ∀ p, t.previous_turn_id = some p → p < t.id) →
      ∀ i, ∃ l, chainFromAux db i (i + 1) = some l := by
  intro db hdec i
  induction i using Nat.strong_induction_on with
  | _ i ih =>
    cases hf : findTurn db i with
    | none => exact ⟨[], by simp only [chainFromAux, hf]⟩
    | some t =>
      cases hp : t.previous_turn_id with
      | none => exact ⟨[t], by simp only [chainFromAux, hf, hp]⟩
      | some p =>
        have hti : t.id = i := by
          have := List.find?_some hf
          simpa using this
        have hmem : t ∈ db.turns := List.mem_of_find?_eq_some hf
        have hpi : p < i := hti ▸ hdec t hmem p hp
        obtain ⟨l, hl⟩ := ih p hpi
        refine ⟨t :: l, ?_⟩
        simp only [chainFromAux, hf, hp]
        rw [chainFromAux_mono db (p + 1) i p l (by omega) hl]
        rfl

/-- Adding one turn with a strictly larger id than everything reachable does
not disturb an already-finished walk below it. -/
theorem chainFromAux_extend :
    ∀ (db db' : DB) (nt : DialogueTurn), db'.turns = nt :: db.turns →
      (∀ u ∈ db.turns, ∀ p, u.previous_turn_id = some p → p < nt.id) →
      ∀ fuel i l, i < nt.id → chainFromAux db i fuel = some l →
        chainFromAux db' i fuel = some l := by
  intro db db' nt hturns hprev fuel
  induction fuel with
  | zero => intro i l _ h; exact absurd h (by simp [chainFromAux])
  | succ n ih =>
    intro i l hi h
    have hfind : findTurn db' i = findTurn db i := by
      simp only [findTurn, hturns]
      rw [List.find?_cons_of_neg]
      simp
      omega
    cases hf : findTurn db i with
    | none =>
      simp only [chainFromAux, hf] at h
      simp only [chainFromAux, hfind, hf]
      exact h
    | some t =>
      cases hp : t.previous_turn_id with
      | none =>
        simp only [chainFromAux, hf, hp] at h
        simp only [chainFromAux, hfind, hf, hp]
        exact h
      | some p =>
        simp only [chainFromAux, hf, hp] at h
        simp only [chainFromAux, hfind, hf, hp]
        have hmem : t ∈ db.turns := List.mem_of_find?_eq_some hf
        have hpn : p < nt.id := hprev t hmem p hp
        cases hc : chainFromAux db p n with
        | none => rw [hc] at h; simp at h
        | some l0 =>
          rw [hc] at h
          rw [ih p l0 hpn hc]
          exact h

/-- Well-formedness of a store/session pair, as maintained by `new_session`
and `add_turn`: ids are allocated below the autoincrement counter, previous
pointers reference strictly smaller ids, and the session head (if any) is an
allocated id. -/
structure StoreInv (db : DB) (sess : Session) : Prop where
  idsLt : ∀ t ∈ db.turns, t.id < db.nextTurnId
  prevLtSelf : ∀ t ∈ db.turns, ∀ p, t.previous_turn_id = some p → p < t.id
  headLt : ∀ h, sess.head_turn_id = some h → h < db.nextTurnId

theorem new_session_inv (db : DB) (uuid : String)
    (hids : ∀ t ∈ db.turns, t.id < db.nextTurnId)
    (hprev : ∀ t ∈ db.turns, ∀ p, t.previous_turn_id = some p → p < t.id) :
    StoreInv (new_session db uuid).2 (new_session db uuid).1 := by
  refine ⟨?_, ?_, ?_⟩
  · intro t ht; exact hids t ht
  · intro t ht; exact hprev t ht
  · intro h hh; simp [new_session] at hh

/-- The effect of one `add_turn` on an already reconstructed history: the
new turn is prepended to the walk's result, and well-formedness is kept. -/
theorem add_turn_step (sess : Session) (db : DB)
    (rt : String) (rd : Message) (cid : String) (fuel : Nat)
    (l : List DialogueTurn) (inv : StoreInv db sess)
    (hchain : get_dialogue_turns db sess fuel = some l) :
    get_dialogue_turns (add_turn sess rt rd cid db).2.2
        (add_turn sess rt rd cid db).2.1 (fuel + 1)
      = some ((add_turn sess rt rd cid db).1 :: l)
    ∧ StoreInv (add_turn sess rt rd cid db).2.2 (add_turn sess rt rd cid db).2.1 := by
  have hturns : (add_turn sess rt rd cid db).2.2.turns
      = (add_turn sess rt rd cid db).1 :: db.turns := rfl
  have hntid : (add_turn sess rt rd cid db).1.id = db.nextTurnId := rfl
  have hfind : findTurn (add_turn sess rt rd cid db).2.2 db.nextTurnId
      = some (add_turn sess rt rd cid db).1 := by
    simp only [findTurn, hturns]
    rw [List.find?_cons_of_pos]
    simp [hntid]
  have hprev0 : (add_turn sess rt rd cid db).1.previous_turn_id
      = sess.head_turn_id := rfl
  constructor
  · show chainFromAux (add_turn sess rt rd cid db).2.2 db.nextTurnId (fuel + 1)
      = some ((add_turn sess rt rd cid db).1 :: l)
    cases hh : sess.head_turn_id with
    | none =>
      have hl : l = [] := by
        simp only [get_dialogue_turns, hh] at hchain
        exact (Option.some_inj.mp hchain).symm
      simp only [chainFromAux, hfind, hprev0, hh, hl]
    | some h =>
      have hcl : chainFromAux db h fuel = some l := by
        simpa only [get_dialogue_turns, hh] using hchain
      have hext : chainFromAux (add_turn sess rt rd cid db).2.2 h fuel = some l := by
        refine chainFromAux_extend db _ _ hturns ?_ fuel h l ?_ hcl
        · intro u hu p hp
          have h1 := inv.prevLtSelf u hu p hp
          have h2 := inv.idsLt u hu
          rw [hntid]
          omega
        · rw [hntid]
          exact inv.headLt h hh
      simp only [chainFromAux, hfind, hprev0, hh, hext]
      rfl
  · refine ⟨?_, ?_, ?_⟩
    · intro t ht
      rw [hturns] at ht
      rcases List.mem_cons.mp ht with h | h
      · subst h
        show (add_turn sess rt rd cid db).1.id < db.nextTurnId + 1
        rw [hntid]
        exact Nat.lt_succ_self _
      · exact Nat.lt_succ_of_lt (inv.idsLt t h)
    · intro t ht p hp
      rw [hturns] at ht
      rcases List.mem_cons.mp ht with h | h
      · subst h
        rw [hprev0] at hp
        rw [hntid]
        exact inv.headLt p hp
      · exact inv.prevLtSelf t h p hp
    · intro h hh
      have hhead : (add_turn sess rt rd cid db).2.1.head_turn_id
          = some db.nextTurnId := rfl
      rw [hhead] at hh
      obtain rfl : db.nextTurnId = h := Option.some_inj.mp hh
      exact Nat.lt_succ_self _

/-- Iterating `add_turn` over a request list prepends the new turns to the
reconstructed history in reverse order of appending (newest first). -/
theorem applyTurns_chain :
    ∀ (reqs : List (String × Message × String)) (sess : Session) (db : DB)
      (fuel : Nat) (l : List DialogueTurn),
      StoreInv db sess → get_dialogue_turns db sess fuel = some l →
      ∃ l', get_dialogue_turns (applyTurns reqs sess db).2
              (applyTurns reqs sess db).1 (fuel + reqs.length) = some l'
        ∧ l'.length = reqs.length + l.length
        ∧ l'.map (·.request_text) = (reqs.map (·.1)).reverse ++ l.map (·.request_text)
        ∧ StoreInv (applyTurns reqs sess db).2 (applyTurns reqs sess db).1 := by
  intro reqs
  induction reqs with
  | nil =>
    intro sess db fuel l inv hchain
    exact ⟨l, by simpa using hchain, by simp, by simp, inv⟩
  | cons r rest ih =>
    obtain ⟨rt, rd, cid⟩ := r
    intro sess db fuel l inv hchain
    obtain ⟨hstep, hinv⟩ := add_turn_step sess db rt rd cid fuel l inv hchain
    obtain ⟨l', hl', hlen, hmap, hinv'⟩ :=
      ih (add_turn sess rt rd cid db).2.1 (add_turn sess rt rd cid db).2.2
        (fuel + 1) ((add_turn sess rt rd cid db).1 :: l) hinv hstep
    have happ : applyTurns ((rt, rd, cid) :: rest) sess db
        = applyTurns rest (add_turn sess rt rd cid db).2.1
            (add_turn sess rt rd cid db).2.2 := rfl
    refine ⟨l', ?_, ?_, ?_, ?_⟩
    · rw [happ, show fuel + ((rt, rd, cid) :: rest).length
        = (fuel + 1) + rest.length from by simp; omega]
      exact hl'
    · rw [hlen]
      simp
      omega
    · rw [hmap]
      have hreq : (add_turn sess rt rd cid db).1.request_text = rt := rfl
      simp [hreq, List.reverse_cons, List.append_assoc]
    · rw [happ]
      exact hinv'

/-- The CTE walk never finishes on the self-looping store: one more row is
produced at every iteration, for any number of iterations. -/
theorem loopDB_chain_none : ∀ fuel, chainFromAux loopDB 1 fuel = none := by
  intro fuel
  induction fuel with
  | zero => rfl
  | succ n ih =>
    have hf : findTurn loopDB 1 = some loopTurn := rfl
    have hp : loopTurn.previous_turn_id = some 1 := rfl
    simp only [chainFromAux, hf, hp, ih]
    rfl

/-! ### Claim theorems -/

/-- C1 (counterexample): the walk of `get_dialogue_turns` returns the turns
newest first, not oldest first.  After appending `"a"` then `"b"` to a fresh
session, the walk returns the `"b"` turn (created at clock 2) before the
`"a"` turn (created at clock 1), so the result is not in ascending
`created_at` order. -/
theorem c1_counterexample :
    (get_dialogue_turns exAfterB.2.2 exAfterB.2.1 10).map
        (List.map (·.request_text)) = some ["b", "a"]
    ∧ (get_dialogue_turns exAfterB.2.2 exAfterB.2.1 10).map
        (List.map (·.created_at)) = some [2, 1]
    ∧ ¬ List.Pairwise (fun a b : Nat => a ≤ b) [2, 1] :=
  ⟨by decide, by decide, by decide⟩

/-- C1 (amended): for every well-formed store and fresh session,
`get_dialogue_turns` after any sequence of successful `add_turn` calls
returns exactly one entry per append — in reverse append order, the newest
turn first (reversing the result gives chronological order). -/
theorem c1_history_newest_first_length :
    ∀ (db : DB) (sess : Session) (reqs : List (String × Message × String)),
      StoreInv db sess → sess.head_turn_id = none →
      ∃ fuel l,
        get_dialogue_turns (applyTurns reqs sess db).2
            (applyTurns reqs sess db).1 fuel = some l
        ∧ l.length = reqs.length
        ∧ l.map (·.request_text) = (reqs.map (·.1)).reverse := by
  intro db sess reqs inv hhead
  have h0 : get_dialogue_turns db sess 0 = some [] := by
    simp [get_dialogue_turns, hhead]
  obtain ⟨l', h1, h2, h3, _⟩ := applyTurns_chain reqs sess db 0 [] inv h0
  refine ⟨0 + reqs.length, l', h1, by simpa using h2, by simpa using h3⟩

/-- C1 (witness): two appends on a fresh session give a two-element history
listing the second request before the first. -/
theorem c1_history_newest_first_length_witness :
    ∃ fuel l,
      get_dialogue_turns
          (applyTurns [("a", { role := "assistant", content := "reply a" }, "cid-a"),
                       ("b", { role := "assistant", content := "reply b" }, "cid-b")]
            exSession exDB).2
          (applyTurns [("a", { role := "assistant", content := "reply a" }, "cid-a"),
                       ("b", { role := "assistant", content := "reply b" }, "cid-b")]
            exSession exDB).1 fuel = some l
      ∧ l.length = 2
      ∧ l.map (·.request_text) = ["b", "a"] := by
  obtain ⟨fuel, l, h1, h2, h3⟩ :=
    c1_history_newest_first_length exDB exSession
      [("a", { role := "assistant", content := "reply a" }, "cid-a"),
       ("b", { role := "assistant", content := "reply b" }, "cid-b")]
      ⟨by decide, by intro t ht; exact absurd ht (List.not_mem_nil t),
       by intro h hh; exact Option.noConfusion hh⟩
      rfl
  exact ⟨fuel, l, h1, by rw [h2]; rfl, by rw [h3]; rfl⟩

/-- C3 (counterexample): the recursive CTE of `get_dialogue_turns` has no
maximum-hops guard and no `CorruptChain` error; on a store whose head turn's
`previous_turn_id` points at itself, the walk never finishes however many
iterations it is given. -/
theorem c3_counterexample : ¬ walkTerminates loopDB loopSession := by
  rintro ⟨fuel, l, hl⟩
  have hl' : chainFromAux loopDB 1 fuel = some l := by
    have hh : loopSession.head_turn_id = some 1 := rfl
    simpa only [get_dialogue_turns, hh] using hl
  rw [loopDB_chain_none fuel] at hl'
  exact Option.noConfusion hl'

/-- C3 (amended): the walk terminates exactly on well-founded chains: when
every stored `previous_turn_id` points at a strictly smaller id — which is
the only shape `add_turn` ever creates — the walk finishes (within
`head + 1` hops).  No bound or `CorruptChain` report exists in the code for
the remaining, corrupt stores. -/
theorem c3_walk_terminates_acyclic :
    ∀ (db : DB) (sess : Session),
      (∀ t ∈ db.turns, ∀ p, t.previous_turn_id = some p → p < t.id) →
      walkTerminates db sess := by
  intro db sess hdec
  cases hh : sess.head_turn_id with
  | none => exact ⟨0, [], by simp [get_dialogue_turns, hh]⟩
  | some h =>
    obtain ⟨l, hl⟩ := chainFromAux_terminates_of_decreasing db hdec h
    exact ⟨h + 1, l, by simp only [get_dialogue_turns, hh, hl]⟩

/-- C3 (witness): the walk terminates on the store produced by creating a
session. -/
theorem c3_walk_terminates_acyclic_witness : walkTerminates exDB exSession :=
  c3_walk_terminates_acyclic exDB exSession
    (by intro t ht; exact absurd ht (List.not_mem_nil t))

/-- C6: `add_turn` creates a turn whose `previous_turn_id` is the session's
current `head_turn_id` (null on a fresh session), repoints `head_turn_id`
at the new turn, sets `updated_at` to the commit time (a strict bump
whenever the clock has advanced since the last write), advances the clock,
and only prepends the one new row. -/
theorem c6_add_turn_links_and_repoints :
    ∀ (sess : Session) (db : DB) (rt : String) (rd : Message) (cid : String),
      (add_turn sess rt rd cid db).1.previous_turn_id = sess.head_turn_id
      ∧ (add_turn sess rt rd cid db).2.1.head_turn_id
          = some (add_turn sess rt rd cid db).1.id
      ∧ (add_turn sess rt rd cid db).2.1.updated_at = db.clock
      ∧ (add_turn sess rt rd cid db).2.2.clock = db.clock + 1
      ∧ (add_turn sess rt rd cid db).2.2.turns
          = (add_turn sess rt rd cid db).1 :: db.turns
      ∧ (sess.head_turn_id = none →
          (add_turn sess rt rd cid db).1.previous_turn_id = none)
      ∧ (sess.updated_at < db.clock →
          sess.updated_at < (add_turn sess rt rd cid db).2.1.updated_at) := by
  intro sess db rt rd cid
  exact ⟨rfl, rfl, rfl, rfl, rfl, fun h => h, fun h => h⟩

/-- C6 (witness): on the brand-new session `exSession`, the appended turn
has a null `previous_turn_id`, the head is repointed to it and `updated_at`
strictly increases. -/
theorem c6_add_turn_links_and_repoints_witness :
    exAfterA.1.previous_turn_id = none
    ∧ exAfterA.2.1.head_turn_id = some exAfterA.1.id
    ∧ exSession.updated_at < exAfterA.2.1.updated_at := by
  obtain ⟨_, h2, _, _, _, h6, h7⟩ :=
    c6_add_turn_links_and_repoints exSession exDB "a"
      { role := "assistant", content := "reply a" } "cid-a"
  exact ⟨h6 (by decide), h2, h7 (by decide)⟩

/-- C7 (counterexample): looking up an unknown token fails with sqlalchemy's
`NoResultFound` (raised by `scalar_one()`), which is not the taxonomy's
`NotFoundError`; no registered handler matches it, so it surfaces as a 500
server error, not a 4xx client error. -/
theorem c7_counterexample :
    findSession exDB "unknown-token" = .error .noResultFound
    ∧ PyExc.noResultFound ≠ PyExc.notFoundError "Resource not found"
    ∧ exception_status .noResultFound = 500
    ∧ isClientErrorStatus 500 = false :=
  ⟨rfl, by decide, rfl, rfl⟩

/-- C7 (amended): for every store and token matching no session, the lookup
performed by `get_session_messages` (and by `post_turn` /
`post_turn_streamed`) raises `NoResultFound`, which the registered exception
handlers do not map, so the failure surfaces as status 500 — a server
error, not a client error. -/
theorem c7_unknown_token_noresultfound :
    ∀ (db : DB) (token : String) (fuel : Nat),
      db.sessions.filter (fun s => s.session_uuid == token) = [] →
      findSession db token = .error .noResultFound
      ∧ get_session_messages db token fuel = .error .noResultFound
      ∧ exception_status .noResultFound = 500
      ∧ isClientErrorStatus (exception_status .noResultFound) = false := by
  intro db token fuel hfilter
  have h1 : findSession db token = .error .noResultFound := by
    simp only [findSession, hfilter]
  refine ⟨h1, ?_, rfl, rfl⟩
  simp only [get_session_messages, h1]
  rfl

/-- C7 (witness): the empty store holds no session for `"unknown-token"`. -/
theorem c7_unknown_token_noresultfound_witness :
    findSession emptyDB "unknown-token" = .error .noResultFound
    ∧ get_session_messages emptyDB "unknown-token" 0 = .error .noResultFound
    ∧ exception_status .noResultFound = 500
    ∧ isClientErrorStatus (exception_status .noResultFound) = false :=
  c7_unknown_token_noresultfound emptyDB "unknown-token" 0 (by decide)

/-- C9: `make_sse_event` performs no XML escaping, contradicting its own
docstring ("escapes XML entities like &, <, >"): a value containing the
closing delimiter `</value>` is emitted verbatim, producing a frame that no
longer parses back to the original value, and two distinct values
(`openai.com` vs `uptotrial.com`) produce the identical frame, so no parse
can recover the original value. -/
theorem c9_no_escaping :
    make_sse_event "data" "</value>"
      = "<event><key>data</key><value></value></value></event>"
    ∧ make_sse_event "data" "openai.com" = make_sse_event "data" "uptotrial.com"
    ∧ ("openai.com" : String) ≠ "uptotrial.com" :=
  ⟨by decide, by decide, by decide⟩

/-- C10: the only transformation `make_sse_event` applies to the value is
the `openai.com → uptotrial.com` rewrite: the emitted frame embeds
`pyReplaceStr value` verbatim, a value without an occurrence passes through
unchanged, a value with an occurrence is changed — while the loop appends
the unmodified value to the transcript accumulator, so the client-visible
frame content differs from the stored chunk exactly on such values. -/
theorem c10_value_rewrite :
    ∀ (key value last : String),
      make_sse_event key value
        = "<event><key>" ++ key ++ "</key><value>" ++ pyReplaceStr value
            ++ "</value></event>"
      ∧ (hasSubStr value = false → pyReplaceStr value = value)
      ∧ (hasSubStr value = true → pyReplaceStr value ≠ value)
      ∧ (runLoop last [.textDelta value]).2 = [value]
      ∧ dataValueOf (.sse "data" value) = some (pyReplaceStr value) := by
  intro key value last
  exact ⟨rfl, pyReplaceStr_eq_self value, pyReplaceStr_ne_self value, rfl, rfl⟩

/-- C10 (witness): on the value `"openai.com"` itself, the client-visible
content differs from the stored chunk: the rewrite yields
`"uptotrial.com"`. -/
theorem c10_value_rewrite_witness :
    pyReplaceStr "openai.com" ≠ "openai.com"
    ∧ pyReplaceStr "openai.com" = "uptotrial.com" :=
  ⟨(c10_value_rewrite "data" "openai.com" "Unknown").2.2.1 (by decide), by decide⟩

/-- C2: when the upstream stream raises after any prefix of events, the
streamed turn emits exactly the already-produced frames followed by
`error`, then `data` carrying the error detail, then `end_error`; the
session and the store are returned untouched, so any later
`get_dialogue_turns` sees the very same history. -/
theorem c2_error_frames_no_persist :
    ∀ (sess : Session) (db : DB) (text cid msg : String)
      (events : List RawEvent),
      (stream_turn_body sess db text cid ⟨events, .raises msg⟩).1
        = Frame.sse "session_uuid" sess.session_uuid
            :: (runLoop "Unknown" events).1
            ++ [.sse "event" "error", .sse "data" msg, .sse "event" "end_error"]
      ∧ (stream_turn_body sess db text cid ⟨events, .raises msg⟩).2.1 = sess
      ∧ (stream_turn_body sess db text cid ⟨events, .raises msg⟩).2.2 = db
      ∧ ∀ fuel,
          get_dialogue_turns
              (stream_turn_body sess db text cid ⟨events, .raises msg⟩).2.2
              (stream_turn_body sess db text cid ⟨events, .raises msg⟩).2.1 fuel
            = get_dialogue_turns db sess fuel := by
  intro sess db text cid msg events
  rcases h : runLoop "Unknown" events with ⟨body, chunks⟩
  refine ⟨?_, ?_, ?_, ?_⟩
  · simp only [stream_turn_body, h]
  · simp only [stream_turn_body, h]
  · simp only [stream_turn_body, h]
  · intro fuel
    simp only [stream_turn_body, h]

/-- C4: per streamed turn, over any injected upstream event sequence
(including the empty one) and either outcome, exactly one terminal frame is
emitted (`end_ok` — the bare sentinel the code yields on success — or
`end_error`), and it is the final frame of the stream. -/
theorem c4_exactly_one_terminal :
    ∀ (sess : Session) (db : DB) (text cid : String) (run : StreamRun),
      ((stream_turn_body sess db text cid run).1.filter isTerminalFrame).length
        = 1
      ∧ ∃ f, (stream_turn_body sess db text cid run).1.getLast? = some f
          ∧ isTerminalFrame f = true := by
  intro sess db text cid run
  rcases run with ⟨events, outcome⟩
  rcases h : runLoop "Unknown" events with ⟨body, chunks⟩
  have hbody : body.filter isTerminalFrame = [] := by
    have hb := runLoop_filter_terminal events "Unknown"
    rw [h] at hb
    exact hb
  have hs : isTerminalFrame (Frame.sse "session_uuid" sess.session_uuid)
      = false := rfl
  cases outcome with
  | raises msg =>
    have hd : isTerminalFrame (Frame.sse "data" msg) = false := rfl
    constructor
    · simp only [stream_turn_body, h]
      simp [List.filter_cons, List.filter_append, hbody, isTerminalFrame]
    · refine ⟨Frame.sse "event" "end_error", ?_, by decide⟩
      simp only [stream_turn_body, h]
      rw [show Frame.sse "session_uuid" sess.session_uuid :: body
            ++ [Frame.sse "event" "error", Frame.sse "data" msg,
                Frame.sse "event" "end_error"]
          = (Frame.sse "session_uuid" sess.session_uuid :: body)
            ++ [Frame.sse "event" "error", Frame.sse "data" msg,
                Frame.sse "event" "end_error"] from by simp]
      rw [List.getLast?_append_of_ne_nil _ (by simp)]
      rfl
  | completes =>
    rcases hat : add_turn sess text
        { role := "assistant", content := String.join chunks } cid db with
      ⟨nt, sess', db'⟩
    constructor
    · simp only [stream_turn_body, h, hat]
      simp [List.filter_cons, List.filter_append, hbody, isTerminalFrame]
    · refine ⟨Frame.bare "event: end_ok", ?_, by decide⟩
      simp only [stream_turn_body, h, hat]
      rw [show Frame.sse "session_uuid" sess.session_uuid :: body
            ++ [Frame.bare "event: end_ok"]
          = (Frame.sse "session_uuid" sess.session_uuid :: body)
            ++ [Frame.bare "event: end_ok"] from by simp]
      rw [List.getLast?_append_of_ne_nil _ (by simp)]
      rfl

/-- C5 (counterexample): a streamed turn whose single text delta is
`"openai.com"` completes; the concatenated client-visible `data` content is
`"uptotrial.com"` (after the encoder's rewrite) while the response payload
the walk later returns for that turn stores the raw `"openai.com"` — the
round-trip equality fails. -/
theorem c5_counterexample :
    clientTranscript exStreamOpenai.1 = "uptotrial.com"
    ∧ (get_dialogue_turns exStreamOpenai.2.2 exStreamOpenai.2.1 2).map
        (List.map (·.response_data.content)) = some ["openai.com"]
    ∧ ("uptotrial.com" : String) ≠ "openai.com" :=
  ⟨by decide, by decide, by decide⟩

/-- C5 (amended): for a streamed turn that completes normally, the
transcript of the `data` frames equals the persisted response payload
provided no emitted chunk contains `"openai.com"` (in general the persisted
payload holds the raw chunks and the client saw them rewritten): the turn
the walk returns at the head of the history carries exactly the
concatenated client-visible `data` content. -/
theorem c5_transcript_roundtrip :
    ∀ (sess : Session) (db : DB) (text cid : String) (events : List RawEvent)
      (fuel : Nat) (l : List DialogueTurn),
      StoreInv db sess → get_dialogue_turns db sess fuel = some l →
      (∀ c ∈ (runLoop "Unknown" events).2, hasSubStr c = false) →
      ∃ t,
        get_dialogue_turns
            (stream_turn_body sess db text cid ⟨events, .completes⟩).2.2
            (stream_turn_body sess db text cid ⟨events, .completes⟩).2.1
            (fuel + 1)
          = some (t :: l)
        ∧ t.response_data.content
            = clientTranscript
                (stream_turn_body sess db text cid ⟨events, .completes⟩).1 := by
  intro sess db text cid events fuel l inv hchain hclean
  rcases h : runLoop "Unknown" events with ⟨body, chunks⟩
  rcases hat : add_turn sess text
      { role := "assistant", content := String.join chunks } cid db with
    ⟨nt, sess', db'⟩
  have hclean' : ∀ c ∈ chunks, hasSubStr c = false := by
    rw [h] at hclean
    exact hclean
  obtain ⟨hstep, _⟩ := add_turn_step sess db text
    { role := "assistant", content := String.join chunks } cid fuel l inv hchain
  rw [hat] at hstep
  have hdv : body.filterMap dataValueOf = chunks.map pyReplaceStr := by
    have hb := runLoop_dataValues events "Unknown"
    rw [h] at hb
    exact hb
  have hmapid : chunks.map pyReplaceStr = chunks := by
    conv_rhs => rw [← List.map_id chunks]
    exact List.map_congr_left (fun c hc => pyReplaceStr_eq_self c (hclean' c hc))
  have hnt : nt.response_data.content = String.join chunks := by
    have hx : nt = (add_turn sess text
        { role := "assistant", content := String.join chunks } cid db).1 := by
      rw [hat]
    rw [hx]
    rfl
  refine ⟨nt, ?_, ?_⟩
  · simp only [stream_turn_body, h, hat]
    exact hstep
  · rw [hnt]
    simp only [stream_turn_body, h, hat]
    simp [clientTranscript, dataValueOf, List.filterMap_append,
      List.filterMap_cons, hdv, hmapid]

/-- C5 (witness): a one-delta run with the clean chunk `"hello"`. -/
theorem c5_transcript_roundtrip_witness :
    ∃ t,
      get_dialogue_turns
          (stream_turn_body exSession exDB "q" "cid-s"
            ⟨[.textDelta "hello"], .completes⟩).2.2
          (stream_turn_body exSession exDB "q" "cid-s"
            ⟨[.textDelta "hello"], .completes⟩).2.1 1
        = some [t]
      ∧ t.response_data.content
          = clientTranscript (stream_turn_body exSession exDB "q" "cid-s"
              ⟨[.textDelta "hello"], .completes⟩).1 :=
  c5_transcript_roundtrip exSession exDB "q" "cid-s" [.textDelta "hello"] 0 []
    ⟨by decide, by intro t ht; exact absurd ht (List.not_mem_nil t),
     by intro h hh; exact Option.noConfusion hh⟩
    rfl (by decide)

/-- C8 (counterexample): a tool-invocation start with an unrecognised name
emits nothing at all — no generic "Using a tool…" fallback exists — and the
cached tool name stays whatever it was (`"Unknown"` initially). -/
theorem c8_counterexample :
    classify "Unknown" (.outputItemAdded "function_call" "my_tool")
      = ([], [], "Unknown")
    ∧ runLoop "Unknown" [.outputItemAdded "function_call" "my_tool"] = ([], [])
    ∧ (stream_turn_body exSession exDB "q" "cid-t"
        ⟨[.outputItemAdded "function_call" "my_tool"], .completes⟩).1.filterMap
          dataValueOf = [] :=
  ⟨by decide, by decide, by decide⟩

/-- C8 (amended): the classifier announces and caches the three recognised
tool names (`list_studies`, `fetch_study`, `search_places`); for any other
function-call name it emits nothing and leaves the cached name unchanged
(the `else: pass` branch), rather than falling back to a generic
announcement. -/
theorem c8_classifier_tool_announcements :
    ∀ (last name : String),
      classify last (.outputItemAdded "function_call" "list_studies")
        = ([.sse "data" toolMsgListStudies], [toolMsgListStudies], "list_studies")
      ∧ classify last (.outputItemAdded "function_call" "fetch_study")
        = ([.sse "data" toolMsgFetchStudy], [toolMsgFetchStudy], "fetch_study")
      ∧ classify last (.outputItemAdded "function_call" "search_places")
        = ([.sse "data" toolMsgSearchPlaces], [toolMsgSearchPlaces],
            "search_places")
      ∧ (name ≠ "list_studies" → name ≠ "fetch_study" →
          name ≠ "search_places" →
          classify last (.outputItemAdded "function_call" name)
            = ([], [], last)) := by
  intro last name
  refine ⟨rfl, rfl, rfl, ?_⟩
  intro h1 h2 h3
  simp [classify, h1, h2, h3]

/-- C8 (witness): `"my_custom_tool"` is not a recognised name, so the
classifier emits nothing and keeps the cached name. -/
theorem c8_classifier_tool_announcements_witness :
    classify "Unknown" (.outputItemAdded "function_call" "my_custom_tool")
      = ([], [], "Unknown") :=
  (c8_classifier_tool_announcements "Unknown" "my_custom_tool").2.2.2
    (by decide) (by decide) (by decide)
